import Mathlib

/-!
# Verification of the alerting / comparison / ranking core

Shallow embedding of the derived-metrics engine of the bike-theft dashboard:

* `recomputeAlerts` (file `utils/recomputeAlerts.js`): groups panel records by
  `area_id` (first-appearance order), sorts each group by month, and computes
  per-record spike / trend-3 signals and an alert level.
* `deltaFeatures` (in `App.jsx`): per-area delta records between two months.
* `rankedTopN` (in `App.jsx`): filtered, stably sorted, truncated top-10.

JavaScript numbers are modelled as rationals (`ℚ`), nullable fields as
`Option`, objects as structures.  JS `Map` / `Object` insertion-order
semantics are modelled explicitly via first-appearance key lists, and the
stable JS `Array.prototype.sort` via `List.mergeSort`.
-/

namespace BikeTheft

/-- A panel record as consumed by `recomputeAlerts`: one area's metrics for one
month.  `risk_index` may be null/absent; `theft_count`, `area_name` and
`stability_flag` are likewise optional passthrough fields. -/
structure Feature where
  area_id : String
  area_name : Option String
  month : String
  risk_index : Option ℚ
  theft_count : Option ℤ
  stability_flag : Option Bool
deriving Repr, DecidableEq, Inhabited

/-- An enriched record: the input record's fields (spread `...row`) plus the
three derived alert fields. -/
structure EnrichedRecord where
  area_id : String
  area_name : Option String
  month : String
  risk_index : Option ℚ
  theft_count : Option ℤ
  stability_flag : Option Bool
  alert_spike : Bool
  alert_trend3 : Bool
  alert_level : String
deriving Repr, DecidableEq, Inhabited

/-- `BASELINE_WINDOW = 6`: months of history for the rolling mean. -/
def BASELINE_WINDOW : Nat := 6

/-- `MIN_PERIODS = 3`: minimum history months before alerting. -/
def MIN_PERIODS : Nat := 3

/-- Insert a key into an insertion-ordered key list unless already present
(the behaviour of JS `Map` / object key insertion). -/
def insertKey (ks : List String) (k : String) : List String :=
  if k ∈ ks then ks else ks ++ [k]

/-- Deduplicate a key list keeping first occurrences in order: the key order
of a JS `Map`, of an object built by `Object.fromEntries`, or of a `Set`
built from a spread. -/
def dedupKeys (l : List String) : List String := l.foldl insertKey []

/-- Keys of the JS `Map` built by `recomputeAlerts`: `area_id`s in order of
first appearance in the input. -/
def areaKeys (features : List Feature) : List String :=
  dedupKeys (features.map (fun f => f.area_id))

/-- Lexicographic "less or equal" on character lists: the order
`a.localeCompare(b) ≤ 0` induces on the ASCII month strings. -/
def charListLe : List Char → List Char → Bool
  | [], _ => true
  | _ :: _, [] => false
  | c :: cs, d :: ds => if c < d then true else if d < c then false else charListLe cs ds

/-- `a.localeCompare(b) ≤ 0` on strings, lexicographic by code unit. -/
def strLe (a b : String) : Bool := charListLe a.data b.data

/-- The month ordering used by the group sort. -/
def monthLe (a b : Feature) : Prop := strLe a.month b.month = true

instance : DecidableRel monthLe := fun _ _ => instDecidableEqBool _ _

/-- `[...rows].sort((a, b) => a.month.localeCompare(b.month))`: a stable sort
of the group ascending by month.  JS `Array.prototype.sort` is stable, so any
stable sort with respect to the same total preorder produces the same list;
we use insertion sort. -/
def sortByMonth (rows : List Feature) : List Feature :=
  rows.insertionSort monthLe

/-- `sorted.slice(Math.max(0, t - BASELINE_WINDOW), t).map(r => r.risk_index)
.filter(v => v != null)`: the non-null risk values of the up-to-6 records
preceding position `t`. -/
def histAt (sorted : List Feature) (t : Nat) : List ℚ :=
  ((sorted.take t).drop (t - BASELINE_WINDOW)).filterMap Feature.risk_index

/-- The non-null `risk_index` values of the up-to-6 records immediately
preceding position `t` of a list of output records: the trailing window as
seen on the output side. -/
def histOut (l : List EnrichedRecord) (t : Nat) : List ℚ :=
  ((l.take t).drop (t - BASELINE_WINDOW)).filterMap (fun e => e.risk_index)

/-- The rolling baseline: the arithmetic mean of the window's non-null values
when there are at least `MIN_PERIODS` of them, otherwise null. -/
def baseline (sorted : List Feature) (t : Nat) : Option ℚ :=
  let history := histAt sorted t
  if MIN_PERIODS ≤ history.length then some (history.sum / history.length) else none

/-- `alert_level` from the two signals: `n = spike?1:0 + trend3?1:0`;
`none` / `watch` / `warning` for `n = 0 / 1 / 2`. -/
def levelOf (spike trend3 : Bool) : String :=
  let n : Nat := (if spike then 1 else 0) + (if trend3 then 1 else 0)
  if n = 0 then "none" else if n = 1 then "watch" else "warning"

/-- The loop body of `recomputeAlerts` at position `t` of the sorted group:
computes the spike and trend-3 signals and the alert level, and spreads them
over the row's fields. -/
def enrichAt (sorted : List Feature) (threshold : ℚ) (t : Nat) : EnrichedRecord :=
  let row := sorted.getD t default
  let ri := row.risk_index
  let alertSpike : Bool :=
    match baseline sorted t, ri with
    | some b, some r => decide (b * (1 + threshold) < r)
    | _, _ => false
  let riPrev1 : Option ℚ := if 1 ≤ t then (sorted.getD (t - 1) default).risk_index else none
  let riPrev2 : Option ℚ := if 2 ≤ t then (sorted.getD (t - 2) default).risk_index else none
  let alertTrend3 : Bool :=
    match ri, riPrev1, riPrev2 with
    | some r, some p1, some p2 => decide (p1 < r ∧ p2 < p1)
    | _, _, _ => false
  { area_id := row.area_id
    area_name := row.area_name
    month := row.month
    risk_index := row.risk_index
    theft_count := row.theft_count
    stability_flag := row.stability_flag
    alert_spike := alertSpike
    alert_trend3 := alertTrend3
    alert_level := levelOf alertSpike alertTrend3 }

/-- One area group: sort by month, then run the `for (let t = 0; ...)` loop. -/
def processGroup (rows : List Feature) (threshold : ℚ) : List EnrichedRecord :=
  let sorted := sortByMonth rows
  (List.range sorted.length).map (fun t => enrichAt sorted threshold t)

/-- `recomputeAlerts(features, threshold)` on a present (non-null) input
array: group by area in first-appearance order and process each group. -/
def recomputeAlerts (features : List Feature) (threshold : ℚ) : List EnrichedRecord :=
  if features.length = 0 then []
  else
    ((areaKeys features).map
      (fun a => processGroup (features.filter (fun f => f.area_id = a)) threshold)).flatten

/-- `recomputeAlerts` including the `!features?.length` guard on an absent
(null / undefined) input: `features ?? []`. -/
def recomputeAlertsOpt (features : Option (List Feature)) (threshold : ℚ) :
    List EnrichedRecord :=
  match features with
  | none => []
  | some fs => recomputeAlerts fs threshold

/-- The records of one area group in the output, in output order. -/
def groupOut (features : List Feature) (threshold : ℚ) (a : String) :
    List EnrichedRecord :=
  (recomputeAlerts features threshold).filter (fun e => e.area_id = a)

/-! ## ComparisonEngine (`deltaFeatures` in `App.jsx`) -/

/-- A delta record comparing one area at months A and B. -/
structure DeltaRecord where
  area_id : String
  area_name : String
  delta_risk_index : Option ℚ
  delta_count : ℤ
  risk_index_a : Option ℚ
  risk_index_b : Option ℚ
  theft_count_a : ℤ
  theft_count_b : ℤ
  alert_level : String
  stability_flag : Bool
deriving Repr, DecidableEq, Inhabited

/-- `Object.fromEntries(fs.filter(f => f.month === m).map(f => [f.area_id, f]))
[id]`: the LAST record of month `m` carrying `area_id = id` (later entries
overwrite earlier ones), or null. -/
def monthMap (fs : List EnrichedRecord) (m id : String) : Option EnrichedRecord :=
  ((fs.filter (fun f => f.month = m)).reverse).find? (fun f => f.area_id = id)

/-- `Object.keys` of the month-`m` map: `area_id`s of month-`m` records in
first-appearance order, deduplicated. -/
def monthKeys (fs : List EnrichedRecord) (m : String) : List String :=
  dedupKeys ((fs.filter (fun f => f.month = m)).map (fun f => f.area_id))

/-- `new Set([...Object.keys(aMap), ...Object.keys(bMap)])` iterated in
insertion order. -/
def allIds (fs : List EnrichedRecord) (mA mB : String) : List String :=
  dedupKeys (monthKeys fs mA ++ monthKeys fs mB)

/-- `+(riB - riA).toFixed(4)`: round to 4 decimal places. -/
def round4 (q : ℚ) : ℚ := (round (q * 10000) : ℤ) / 10000

/-- The body of the `allIds.map(id => ...)` in `deltaFeatures`. -/
def mkDelta (fs : List EnrichedRecord) (mA mB id : String) : DeltaRecord :=
  let a := monthMap fs mA id
  let b := monthMap fs mB id
  let riA : Option ℚ := a.bind EnrichedRecord.risk_index
  let riB : Option ℚ := b.bind EnrichedRecord.risk_index
  { area_id := id
    area_name :=
      ((a.bind EnrichedRecord.area_name).orElse
        (fun _ => b.bind EnrichedRecord.area_name)).getD ""
    delta_risk_index :=
      match riA, riB with
      | some x, some y => some (round4 (y - x))
      | _, _ => none
    delta_count :=
      (b.bind EnrichedRecord.theft_count).getD 0 - (a.bind EnrichedRecord.theft_count).getD 0
    risk_index_a := riA
    risk_index_b := riB
    theft_count_a := (a.bind EnrichedRecord.theft_count).getD 0
    theft_count_b := (b.bind EnrichedRecord.theft_count).getD 0
    alert_level := (b.map EnrichedRecord.alert_level).getD "none"
    stability_flag := (b.bind EnrichedRecord.stability_flag).getD false }

/-- `deltaFeatures`: guard on falsy (`""`) or equal months, then one delta
record per area in the union of the two months. -/
def deltaFeatures (fs : List EnrichedRecord) (mA mB : String) : List DeltaRecord :=
  if mA = "" ∨ mB = "" ∨ mA = mB then []
  else (allIds fs mA mB).map (fun id => mkDelta fs mA mB id)

/-! ## RankingSelector (`rankedTopN` in `App.jsx`)

The metric field name is modelled as an accessor `metric : α → Option ℚ`
(JS `f[metric]`, null/undefined as `none`; `NaN` has no counterpart in the
rational model), and the `alert_level` access as `alertOf : α → Option String`
(`undefined` as `none`).  The JS truthiness test `f.alert_level &&
f.alert_level !== 'none'` rejects an absent level, the empty string and
`"none"`.  The stable JS `Array.prototype.sort` with comparator
`(b[metric] ?? -Infinity) - (a[metric] ?? -Infinity)` is `mergeSort` with
`le a b := metric b ≤ metric a` (after the first filter every metric value is
present, so the `?? -Infinity` fallback is inert). -/

/-- `rankedTopN`: filter out null metrics, optionally keep only alerting
records, stably sort descending by metric, take the first 10. -/
def rankedTopN {α : Type} (source : List α) (metric : α → Option ℚ)
    (alertOf : α → Option String) (alertsOnly : Bool) : List α :=
  ((((source.filter (fun f => (metric f).isSome)).filter
      (fun f => if alertsOnly then
          (match alertOf f with
           | some l => decide (l ≠ "" ∧ l ≠ "none")
           | none => false)
        else true)).insertionSort
      (fun a b => (metric b).getD 0 ≤ (metric a).getD 0)).take 10)

/-! ## Concrete fixtures used by the witness theorems -/

/-- Shorthand for building a concrete panel record. -/
def mkF (a m : String) (ri : Option ℚ) : Feature :=
  { area_id := a, area_name := some a, month := m, risk_index := ri
    theft_count := some 5, stability_flag := none }

/-- Area `"X"` over seven months with `risk_index = [1,1,1,1,1,1,3]` (the
spec's spike example) and a second sparse area `"Y"`. -/
def wFeatures : List Feature :=
  [ mkF "X" "2023-01" (some 1), mkF "X" "2023-02" (some 1)
  , mkF "Y" "2023-02" none
  , mkF "X" "2023-03" (some 1), mkF "X" "2023-04" (some 1)
  , mkF "X" "2023-05" (some 1), mkF "X" "2023-06" (some 1)
  , mkF "X" "2023-07" (some 3) ]

/-- Shorthand for building a concrete enriched record. -/
def mkE (a m : String) (ri : Option ℚ) (tc : Option ℤ) (lvl : String) :
    EnrichedRecord :=
  { area_id := a, area_name := some a, month := m, risk_index := ri
    theft_count := tc, stability_flag := some false
    alert_spike := false, alert_trend3 := false, alert_level := lvl }

/-- Enriched records over two months: area `"X"` at both, `"Y"` only at the
second month. -/
def wEnriched : List EnrichedRecord :=
  [ mkE "X" "2023-01" (some 1) (some 5) "none"
  , mkE "X" "2023-02" (some (3/2)) (some 8) "watch"
  , mkE "Y" "2023-02" (some 2) none "warning" ]

/-- The first output record of the fixture panel at threshold `1/2`. -/
def wRec0 : EnrichedRecord := (recomputeAlerts wFeatures (1/2)).getD 0 default

end BikeTheft
namespace BikeTheft

/-! ## Lemmas: the lexicographic month order is a total preorder -/

theorem charListLe_total : ∀ a b : List Char, charListLe a b = true ∨ charListLe b a = true
  | [], _ => Or.inl rfl
  | _ :: _, [] => Or.inr rfl
  | c :: cs, d :: ds => by
    by_cases hcd : c < d
    · left; simp [charListLe, hcd]
    · by_cases hdc : d < c
      · right; simp [charListLe, hdc]
      · have hce : c = d := le_antisymm (not_lt.mp hdc) (not_lt.mp hcd)
        subst hce
        rcases charListLe_total cs ds with h | h
        · left; simpa [charListLe, hcd] using h
        · right; simpa [charListLe, hcd] using h

theorem charListLe_trans :
    ∀ a b c : List Char, charListLe a b = true → charListLe b c = true →
      charListLe a c = true
  | [], _, _, _, _ => rfl
  | _ :: _, [], _, h, _ => by simp [charListLe] at h
  | _ :: _, _ :: _, [], _, h => by simp [charListLe] at h
  | x :: xs, y :: ys, z :: zs, h1, h2 => by
    by_cases hxy : x < y
    · by_cases hyz : y < z
      · simp [charListLe, lt_trans hxy hyz]
      · by_cases hzy : z < y
        · exfalso
          simp only [charListLe, if_neg hyz, if_pos hzy] at h2
          exact Bool.false_ne_true h2
        · have : y = z := le_antisymm (not_lt.mp hzy) (not_lt.mp hyz)
          subst this
          simp [charListLe, hxy]
    · by_cases hyx : y < x
      · simp only [charListLe, if_neg hxy, if_pos hyx] at h1
        exact absurd h1 Bool.false_ne_true
      · have hxe : x = y := le_antisymm (not_lt.mp hyx) (not_lt.mp hxy)
        subst hxe
        by_cases hyz : x < z
        · simp [charListLe, hyz]
        · by_cases hzy : z < x
          · simp only [charListLe, if_neg hyz, if_pos hzy] at h2
            exact absurd h2 Bool.false_ne_true
          · have : x = z := le_antisymm (not_lt.mp hzy) (not_lt.mp hyz)
            subst this
            simp only [charListLe, if_neg hyz, lt_irrefl, if_neg (lt_irrefl x)] at h1 h2 ⊢
            exact charListLe_trans _ _ _ h1 h2

instance : IsTotal Feature monthLe :=
  ⟨fun a b => charListLe_total a.month.data b.month.data⟩

instance : IsTrans Feature monthLe :=
  ⟨fun _ _ _ h1 h2 => charListLe_trans _ _ _ h1 h2⟩

/-! ## Lemmas: insertion-ordered key lists -/

theorem mem_insertKey {ks : List String} {k x : String} :
    x ∈ insertKey ks k ↔ x ∈ ks ∨ x = k := by
  unfold insertKey
  split
  · rename_i hk
    constructor
    · exact Or.inl
    · rintro (h | rfl)
      · exact h
      · exact hk
  · simp

theorem nodup_insertKey {ks : List String} (h : ks.Nodup) (k : String) :
    (insertKey ks k).Nodup := by
  unfold insertKey
  split
  · exact h
  · rename_i hk
    simpa [List.nodup_append] using ⟨h, hk⟩

theorem mem_foldl_insertKey :
    ∀ (l acc : List String) (x : String),
      x ∈ l.foldl insertKey acc ↔ x ∈ acc ∨ x ∈ l
  | [], acc, x => by simp
  | k :: l, acc, x => by
    rw [List.foldl_cons, mem_foldl_insertKey l (insertKey acc k) x, mem_insertKey]
    constructor
    · rintro ((h | rfl) | h)
      · exact Or.inl h
      · exact Or.inr (List.mem_cons_self _ _)
      · exact Or.inr (List.mem_cons_of_mem _ h)
    · rintro (h | h)
      · exact Or.inl (Or.inl h)
      · rcases List.mem_cons.mp h with rfl | h
        · exact Or.inl (Or.inr rfl)
        · exact Or.inr h

theorem nodup_foldl_insertKey :
    ∀ (l acc : List String), acc.Nodup → (l.foldl insertKey acc).Nodup
  | [], _, h => h
  | k :: l, acc, h => by
    rw [List.foldl_cons]
    exact nodup_foldl_insertKey l (insertKey acc k) (nodup_insertKey h k)

theorem mem_dedupKeys {l : List String} {x : String} : x ∈ dedupKeys l ↔ x ∈ l := by
  unfold dedupKeys
  rw [mem_foldl_insertKey]
  simp

theorem nodup_dedupKeys (l : List String) : (dedupKeys l).Nodup :=
  nodup_foldl_insertKey l [] List.nodup_nil

theorem mem_areaKeys {fs : List Feature} {a : String} :
    a ∈ areaKeys fs ↔ ∃ f ∈ fs, f.area_id = a := by
  unfold areaKeys
  rw [mem_dedupKeys]
  simp [eq_comm]

theorem nodup_areaKeys (fs : List Feature) : (areaKeys fs).Nodup :=
  nodup_dedupKeys _

/-! ## Lemmas: structure of `processGroup` and `recomputeAlerts` -/

theorem length_sortByMonth (rows : List Feature) :
    (sortByMonth rows).length = rows.length :=
  List.length_insertionSort _ _

theorem mem_sortByMonth {rows : List Feature} {r : Feature} :
    r ∈ sortByMonth rows ↔ r ∈ rows :=
  List.mem_insertionSort _

theorem length_processGroup (rows : List Feature) (θ : ℚ) :
    (processGroup rows θ).length = rows.length := by
  simp [processGroup, length_sortByMonth]

theorem getElem_processGroup {rows : List Feature} (θ : ℚ) {t : Nat}
    (h : t < (processGroup rows θ).length) :
    (processGroup rows θ)[t] = enrichAt (sortByMonth rows) θ t := by
  simp [processGroup]

theorem getD_processGroup {rows : List Feature} (θ : ℚ) {t : Nat}
    (h : t < (processGroup rows θ).length) :
    (processGroup rows θ).getD t default = enrichAt (sortByMonth rows) θ t := by
  rw [List.getD_eq_getElem _ _ h, getElem_processGroup θ h]

theorem mem_processGroup {rows : List Feature} {θ : ℚ} {e : EnrichedRecord} :
    e ∈ processGroup rows θ ↔
      ∃ t, t < rows.length ∧ e = enrichAt (sortByMonth rows) θ t := by
  simp only [processGroup, List.mem_map, List.mem_range, length_sortByMonth]
  constructor
  · rintro ⟨t, ht, rfl⟩; exact ⟨t, ht, rfl⟩
  · rintro ⟨t, ht, rfl⟩; exact ⟨t, ht, rfl⟩

theorem area_id_enrichAt (sorted : List Feature) (θ : ℚ) (t : Nat) :
    (enrichAt sorted θ t).area_id = (sorted.getD t default).area_id := rfl

theorem processGroup_area_const {rows : List Feature} {θ : ℚ} {a : String}
    (h : ∀ r ∈ rows, r.area_id = a) :
    ∀ e ∈ processGroup rows θ, e.area_id = a := by
  intro e he
  rcases mem_processGroup.mp he with ⟨t, ht, rfl⟩
  rw [area_id_enrichAt]
  have hts : t < (sortByMonth rows).length := by rwa [length_sortByMonth]
  have hmem : (sortByMonth rows).getD t default ∈ sortByMonth rows := by
    rw [List.getD_eq_getElem _ _ hts]; exact List.getElem_mem hts
  exact h _ (mem_sortByMonth.mp hmem)

theorem flatten_filter_eq_single (g : String → List EnrichedRecord) (a : String)
    (hg : ∀ a' e, e ∈ g a' → e.area_id = a') :
    ∀ keys : List String, keys.Nodup →
      ((keys.map g).flatten.filter (fun e => e.area_id = a)) =
        if a ∈ keys then g a else []
  | [], _ => by simp
  | k :: keys, hnd => by
    rw [List.map_cons, List.flatten_cons, List.filter_append,
      flatten_filter_eq_single g a hg keys (List.nodup_cons.mp hnd).2]
    by_cases hk : k = a
    · subst hk
      have h1 : (g k).filter (fun e => e.area_id = k) = g k :=
        List.filter_eq_self.mpr (fun e he => by simpa using hg k e he)
      have h2 : k ∉ keys := (List.nodup_cons.mp hnd).1
      simp [h1, h2]
    · have h1 : (g k).filter (fun e => e.area_id = a) = [] := by
        rw [List.filter_eq_nil_iff]
        intro e he
        simp [hg k e he, hk]
      have hma : (a ∈ k :: keys) ↔ (a ∈ keys) := by
        constructor
        · intro h
          rcases List.mem_cons.mp h with rfl | h
          · exact absurd rfl hk
          · exact h
        · exact fun h => List.mem_cons_of_mem _ h
      simp [h1, hma]

theorem processGroup_nil (θ : ℚ) : processGroup [] θ = [] := rfl

theorem groupOut_eq (fs : List Feature) (θ : ℚ) (a : String) :
    groupOut fs θ a = processGroup (fs.filter (fun f => f.area_id = a)) θ := by
  unfold groupOut recomputeAlerts
  by_cases hfs : fs.length = 0
  · rw [List.length_eq_zero] at hfs
    subst hfs
    simp [processGroup_nil]
  · rw [if_neg hfs]
    rw [flatten_filter_eq_single _ a
      (fun a' e he =>
        processGroup_area_const (fun r hr => by simpa using (List.mem_filter.mp hr).2) e he)
      (areaKeys fs) (nodup_areaKeys fs)]
    by_cases ha : a ∈ areaKeys fs
    · rw [if_pos ha]
    · rw [if_neg ha]
      have : fs.filter (fun f => f.area_id = a) = [] := by
        rw [List.filter_eq_nil_iff]
        intro f hf hfa
        exact ha (mem_areaKeys.mpr ⟨f, hf, by simpa using hfa⟩)
      rw [this, processGroup_nil]

theorem length_groupOut (fs : List Feature) (θ : ℚ) (a : String) :
    (groupOut fs θ a).length = (fs.filter (fun f => f.area_id = a)).length := by
  rw [groupOut_eq, length_processGroup]

/-! ## Lemmas: the enriched fields at each position of a group -/

theorem risk_index_enrichAt (sorted : List Feature) (θ : ℚ) (t : Nat) :
    (enrichAt sorted θ t).risk_index = (sorted.getD t default).risk_index := rfl

theorem month_enrichAt (sorted : List Feature) (θ : ℚ) (t : Nat) :
    (enrichAt sorted θ t).month = (sorted.getD t default).month := rfl

theorem map_risk_processGroup (rows : List Feature) (θ : ℚ) :
    (processGroup rows θ).map (fun e => e.risk_index) =
      (sortByMonth rows).map (fun f => f.risk_index) := by
  apply List.ext_getElem
  · simp [length_processGroup, length_sortByMonth]
  · intro i h1 h2
    simp only [List.getElem_map]
    rw [getElem_processGroup θ (by simpa [length_processGroup] using
      (by simpa [List.length_map] using h1 : i < (processGroup rows θ).length))]
    rw [risk_index_enrichAt,
      List.getD_eq_getElem _ _ (by simpa [List.length_map] using h2)]

theorem map_month_processGroup (rows : List Feature) (θ : ℚ) :
    (processGroup rows θ).map (fun e => e.month) =
      (sortByMonth rows).map (fun f => f.month) := by
  apply List.ext_getElem
  · simp [length_processGroup, length_sortByMonth]
  · intro i h1 h2
    simp only [List.getElem_map]
    rw [getElem_processGroup θ (by simpa [List.length_map] using h1)]
    rw [month_enrichAt,
      List.getD_eq_getElem _ _ (by simpa [List.length_map] using h2)]

theorem filterMap_congr_of_map_eq {α β γ : Type}
    (f : α → Option γ) (g : β → Option γ) :
    ∀ (A : List α) (B : List β), A.map f = B.map g → A.filterMap f = B.filterMap g
  | [], [], _ => rfl
  | [], _ :: _, h => by simp at h
  | _ :: _, [], h => by simp at h
  | a :: A, b :: B, h => by
    rw [List.map_cons, List.map_cons] at h
    obtain ⟨h1, h2⟩ := List.cons.injEq _ _ _ _ ▸ h
    rw [List.filterMap_cons, List.filterMap_cons, h1,
      filterMap_congr_of_map_eq f g A B h2]

theorem histOut_processGroup (rows : List Feature) (θ : ℚ) (t : Nat) :
    histOut (processGroup rows θ) t = histAt (sortByMonth rows) t := by
  unfold histOut histAt
  apply filterMap_congr_of_map_eq
  rw [List.map_drop, List.map_take, List.map_drop, List.map_take,
    map_risk_processGroup]

theorem alert_spike_enrichAt (sorted : List Feature) (θ : ℚ) (t : Nat) :
    (enrichAt sorted θ t).alert_spike = true ↔
      (MIN_PERIODS ≤ (histAt sorted t).length ∧
        ∃ r, (sorted.getD t default).risk_index = some r ∧
          ((histAt sorted t).sum / ((histAt sorted t).length : ℚ)) * (1 + θ) < r) := by
  simp only [enrichAt, baseline]
  rcases hri : (sorted.getD t default).risk_index with _ | r <;>
    by_cases hlen : MIN_PERIODS ≤ (histAt sorted t).length <;>
      simp [hri, hlen]

theorem alert_trend3_enrichAt (sorted : List Feature) (θ : ℚ) (t : Nat) :
    (enrichAt sorted θ t).alert_trend3 = true ↔
      (2 ≤ t ∧ ∃ r p1 p2,
        (sorted.getD t default).risk_index = some r ∧
        (sorted.getD (t - 1) default).risk_index = some p1 ∧
        (sorted.getD (t - 2) default).risk_index = some p2 ∧
        p1 < r ∧ p2 < p1) := by
  simp only [enrichAt]
  by_cases h2 : 2 ≤ t
  · have h1 : 1 ≤ t := le_trans (by norm_num) h2
    rw [if_pos h1, if_pos h2]
    rcases hri : (sorted.getD t default).risk_index with _ | r <;>
      rcases hp1 : (sorted.getD (t - 1) default).risk_index with _ | p1 <;>
        rcases hp2 : (sorted.getD (t - 2) default).risk_index with _ | p2 <;>
          simp [h2, and_assoc]
  · rw [if_neg h2]
    by_cases h1 : 1 ≤ t
    · rw [if_pos h1]
      rcases hri : (sorted.getD t default).risk_index with _ | r <;>
        rcases hp1 : (sorted.getD (t - 1) default).risk_index with _ | p1 <;>
          simp [h2]
    · rw [if_neg h1]
      rcases hri : (sorted.getD t default).risk_index with _ | r <;> simp [h2]

theorem alert_level_enrichAt (sorted : List Feature) (θ : ℚ) (t : Nat) :
    (enrichAt sorted θ t).alert_level =
      levelOf (enrichAt sorted θ t).alert_spike (enrichAt sorted θ t).alert_trend3 := rfl

theorem levelOf_spec (s u : Bool) :
    (levelOf s u = "warning" ↔ (s = true ∧ u = true))
    ∧ (levelOf s u = "watch" ↔
        ((s = true ∧ u = false) ∨ (s = false ∧ u = true)))
    ∧ (levelOf s u = "none" ↔ (s = false ∧ u = false)) := by
  cases s <;> cases u <;> refine ⟨⟨?_, ?_⟩, ⟨?_, ?_⟩, ⟨?_, ?_⟩⟩ <;> decide

theorem mem_recomputeAlerts {fs : List Feature} {θ : ℚ} {e : EnrichedRecord}
    (he : e ∈ recomputeAlerts fs θ) :
    ∃ rows t, t < rows.length ∧ e = enrichAt (sortByMonth rows) θ t := by
  unfold recomputeAlerts at he
  split at he
  · simp at he
  · rcases List.mem_flatten.mp he with ⟨l, hl, hel⟩
    rcases List.mem_map.mp hl with ⟨a, _, rfl⟩
    rcases mem_processGroup.mp hel with ⟨t, ht, rfl⟩
    exact ⟨_, t, ht, rfl⟩

/-! ## The claims -/

/-- C5: for every output record of `recomputeAlerts`, `alert_level` is the
function `levelOf` of the two booleans only, and `warning` / `watch` / `none`
hold exactly when both / exactly one / neither of `alert_spike` and
`alert_trend3` are true. -/
theorem alert_level_classification (fs : List Feature) (θ : ℚ) :
    ∀ e ∈ recomputeAlerts fs θ,
      e.alert_level = levelOf e.alert_spike e.alert_trend3
      ∧ (e.alert_level = "warning" ↔ (e.alert_spike = true ∧ e.alert_trend3 = true))
      ∧ (e.alert_level = "watch" ↔
          ((e.alert_spike = true ∧ e.alert_trend3 = false)
            ∨ (e.alert_spike = false ∧ e.alert_trend3 = true)))
      ∧ (e.alert_level = "none" ↔ (e.alert_spike = false ∧ e.alert_trend3 = false)) := by
  intro e he
  rcases mem_recomputeAlerts he with ⟨rows, t, _, rfl⟩
  exact ⟨alert_level_enrichAt _ θ t, levelOf_spec _ _⟩

/-- Witness for C5 at a concrete record of the fixture panel. -/
theorem alert_level_classification_witness :
    wRec0 ∈ recomputeAlerts wFeatures (1/2)
    ∧ (wRec0.alert_level = levelOf wRec0.alert_spike wRec0.alert_trend3
      ∧ (wRec0.alert_level = "warning" ↔ (wRec0.alert_spike = true ∧ wRec0.alert_trend3 = true))
      ∧ (wRec0.alert_level = "watch" ↔
          ((wRec0.alert_spike = true ∧ wRec0.alert_trend3 = false)
            ∨ (wRec0.alert_spike = false ∧ wRec0.alert_trend3 = true)))
      ∧ (wRec0.alert_level = "none" ↔ (wRec0.alert_spike = false ∧ wRec0.alert_trend3 = false))) := by
  have hm : wRec0 ∈ recomputeAlerts wFeatures (1/2) := by
    unfold wRec0
    rw [List.getD_eq_getElem _ _ (by decide)]
    exact List.getElem_mem (by decide)
  exact ⟨hm, alert_level_classification wFeatures (1/2) wRec0 hm⟩

theorem risk_index_getD_processGroup (rows : List Feature) (θ : ℚ) {i : Nat}
    (h : i < (processGroup rows θ).length) :
    ((processGroup rows θ).getD i default).risk_index
      = ((sortByMonth rows).getD i default).risk_index := by
  rw [getD_processGroup θ h, risk_index_enrichAt]

/-- C1: in each area group of the output, `alert_spike` at chronological
position `t` is true iff the up-to-6 immediately preceding records contain at
least 3 non-null `risk_index` values, the current `risk_index` is non-null,
and it strictly exceeds the window mean times `(1 + threshold)`; with fewer
than 3 non-null window values the signal is false regardless of the current
value. -/
theorem alert_spike_characterization (fs : List Feature) (θ : ℚ) (a : String)
    (t : Nat) (h : t < (groupOut fs θ a).length) :
    (((groupOut fs θ a).getD t default).alert_spike = true ↔
      (3 ≤ (histOut (groupOut fs θ a) t).length ∧
        ∃ r, ((groupOut fs θ a).getD t default).risk_index = some r ∧
          ((histOut (groupOut fs θ a) t).sum /
            ((histOut (groupOut fs θ a) t).length : ℚ)) * (1 + θ) < r))
    ∧ ((histOut (groupOut fs θ a) t).length < 3 →
        ((groupOut fs θ a).getD t default).alert_spike = false) := by
  rw [groupOut_eq] at h ⊢
  rw [getD_processGroup θ h, histOut_processGroup, risk_index_enrichAt]
  have hiff := alert_spike_enrichAt (sortByMonth (fs.filter (fun f => f.area_id = a))) θ t
  constructor
  · simpa [MIN_PERIODS] using hiff
  · intro hlen
    cases hsp : (enrichAt (sortByMonth (fs.filter (fun f => f.area_id = a))) θ t).alert_spike
    · rfl
    · have h3 := (hiff.mp hsp).1
      simp only [MIN_PERIODS] at h3
      omega

/-- Witness for C1 at position 6 of area `"X"` of the fixture panel. -/
theorem alert_spike_characterization_witness :
    6 < (groupOut wFeatures (1/2) "X").length
    ∧ ((((groupOut wFeatures (1/2) "X").getD 6 default).alert_spike = true ↔
        (3 ≤ (histOut (groupOut wFeatures (1/2) "X") 6).length ∧
          ∃ r, ((groupOut wFeatures (1/2) "X").getD 6 default).risk_index = some r ∧
            ((histOut (groupOut wFeatures (1/2) "X") 6).sum /
              ((histOut (groupOut wFeatures (1/2) "X") 6).length : ℚ)) * (1 + 1/2) < r))
      ∧ ((histOut (groupOut wFeatures (1/2) "X") 6).length < 3 →
          ((groupOut wFeatures (1/2) "X").getD 6 default).alert_spike = false)) :=
  ⟨by decide, alert_spike_characterization wFeatures (1/2) "X" 6 (by decide)⟩

/-- C4: in each area group of the output, `alert_trend3` at chronological
position `t` is true iff the records at positions `t`, `t-1`, `t-2` all have
non-null `risk_index` forming a strictly increasing chain; a null at `t-1` or
`t-2` makes it false even when earlier non-null values exist. -/
theorem alert_trend3_characterization (fs : List Feature) (θ : ℚ) (a : String)
    (t : Nat) (h : t < (groupOut fs θ a).length) :
    (((groupOut fs θ a).getD t default).alert_trend3 = true ↔
      (2 ≤ t ∧ ∃ r p1 p2,
        ((groupOut fs θ a).getD t default).risk_index = some r ∧
        ((groupOut fs θ a).getD (t - 1) default).risk_index = some p1 ∧
        ((groupOut fs θ a).getD (t - 2) default).risk_index = some p2 ∧
        p2 < p1 ∧ p1 < r))
    ∧ ((2 ≤ t ∧ (((groupOut fs θ a).getD (t - 1) default).risk_index = none
        ∨ ((groupOut fs θ a).getD (t - 2) default).risk_index = none)) →
        ((groupOut fs θ a).getD t default).alert_trend3 = false) := by
  rw [groupOut_eq] at h ⊢
  have h1 : t - 1 < (processGroup (fs.filter (fun f => f.area_id = a)) θ).length :=
    lt_of_le_of_lt (Nat.sub_le t 1) h
  have h2 : t - 2 < (processGroup (fs.filter (fun f => f.area_id = a)) θ).length :=
    lt_of_le_of_lt (Nat.sub_le t 2) h
  rw [risk_index_getD_processGroup _ θ h1, risk_index_getD_processGroup _ θ h2,
    getD_processGroup θ h, risk_index_enrichAt]
  have hiff := alert_trend3_enrichAt (sortByMonth (fs.filter (fun f => f.area_id = a))) θ t
  constructor
  · rw [hiff]
    constructor
    · rintro ⟨ht, r, p1, p2, hr, hp1, hp2, hlt1, hlt2⟩
      exact ⟨ht, r, p1, p2, hr, hp1, hp2, hlt2, hlt1⟩
    · rintro ⟨ht, r, p1, p2, hr, hp1, hp2, hlt2, hlt1⟩
      exact ⟨ht, r, p1, p2, hr, hp1, hp2, hlt1, hlt2⟩
  · rintro ⟨ht, hnone⟩
    cases htr : (enrichAt (sortByMonth (fs.filter (fun f => f.area_id = a))) θ t).alert_trend3
    · rfl
    · exfalso
      rcases (hiff.mp htr).2 with ⟨r, p1, p2, _, hp1, hp2, _⟩
      rcases hnone with hn | hn
      · rw [hn] at hp1; exact Option.noConfusion hp1
      · rw [hn] at hp2; exact Option.noConfusion hp2

/-- Witness for C4 at position 6 of area `"X"` of the fixture panel. -/
theorem alert_trend3_characterization_witness :
    6 < (groupOut wFeatures (1/2) "X").length
    ∧ ((((groupOut wFeatures (1/2) "X").getD 6 default).alert_trend3 = true ↔
        (2 ≤ 6 ∧ ∃ r p1 p2,
          ((groupOut wFeatures (1/2) "X").getD 6 default).risk_index = some r ∧
          ((groupOut wFeatures (1/2) "X").getD (6 - 1) default).risk_index = some p1 ∧
          ((groupOut wFeatures (1/2) "X").getD (6 - 2) default).risk_index = some p2 ∧
          p2 < p1 ∧ p1 < r))
      ∧ ((2 ≤ 6 ∧ (((groupOut wFeatures (1/2) "X").getD (6 - 1) default).risk_index = none
          ∨ ((groupOut wFeatures (1/2) "X").getD (6 - 2) default).risk_index = none)) →
          ((groupOut wFeatures (1/2) "X").getD 6 default).alert_trend3 = false)) :=
  ⟨by decide, alert_trend3_characterization wFeatures (1/2) "X" 6 (by decide)⟩

/-- C10: the first three chronological records of each area group always have
`alert_spike = false`, and the first two additionally have
`alert_trend3 = false` and `alert_level = "none"`, regardless of their
`risk_index` values. -/
theorem early_positions_quiet (fs : List Feature) (θ : ℚ) (a : String)
    (t : Nat) (h : t < (groupOut fs θ a).length) :
    (t < 3 → ((groupOut fs θ a).getD t default).alert_spike = false)
    ∧ (t < 2 → ((groupOut fs θ a).getD t default).alert_trend3 = false
        ∧ ((groupOut fs θ a).getD t default).alert_level = "none") := by
  rw [groupOut_eq] at h ⊢
  rw [getD_processGroup θ h]
  set sorted := sortByMonth (fs.filter (fun f => f.area_id = a)) with hsorted
  have hspike : t < 3 → (enrichAt sorted θ t).alert_spike = false := by
    intro ht3
    have hlen : (histAt sorted t).length < 3 := by
      have hle1 : (histAt sorted t).length ≤ ((sorted.take t).drop (t - BASELINE_WINDOW)).length :=
        List.length_filterMap_le _ _
      have hle2 : ((sorted.take t).drop (t - BASELINE_WINDOW)).length ≤ (sorted.take t).length := by
        rw [List.length_drop]
        omega
      have hle3 : (sorted.take t).length ≤ t := by
        rw [List.length_take]
        omega
      omega
    cases hsp : (enrichAt sorted θ t).alert_spike
    · rfl
    · have h3 := ((alert_spike_enrichAt sorted θ t).mp hsp).1
      simp only [MIN_PERIODS] at h3
      omega
  refine ⟨hspike, fun ht2 => ⟨?_, ?_⟩⟩
  · cases htr : (enrichAt sorted θ t).alert_trend3
    · rfl
    · have := ((alert_trend3_enrichAt sorted θ t).mp htr).1
      omega
  · rw [alert_level_enrichAt]
    have hs := hspike (by omega)
    have htr : (enrichAt sorted θ t).alert_trend3 = false := by
      cases htr : (enrichAt sorted θ t).alert_trend3
      · rfl
      · have := ((alert_trend3_enrichAt sorted θ t).mp htr).1
        omega
    rw [hs, htr]
    rfl

/-- Witness for C10 at position 0 of area `"X"` of the fixture panel. -/
theorem early_positions_quiet_witness :
    0 < (groupOut wFeatures (1/2) "X").length
    ∧ ((0 < 3 → ((groupOut wFeatures (1/2) "X").getD 0 default).alert_spike = false)
      ∧ (0 < 2 → ((groupOut wFeatures (1/2) "X").getD 0 default).alert_trend3 = false
          ∧ ((groupOut wFeatures (1/2) "X").getD 0 default).alert_level = "none")) :=
  ⟨by decide, early_positions_quiet wFeatures (1/2) "X" 0 (by decide)⟩

theorem length_flatten_filter_groups :
    ∀ (keys : List String) (fs : List Feature), keys.Nodup →
      (∀ f ∈ fs, f.area_id ∈ keys) →
      ((keys.map (fun a => fs.filter (fun f => f.area_id = a))).flatten).length = fs.length
  | [], fs, _, hcov => by
    cases fs with
    | nil => rfl
    | cons f fs => exact absurd (hcov f (List.mem_cons_self f fs)) (List.not_mem_nil _)
  | k :: keys, fs, hnd, hcov => by
    rw [List.map_cons, List.flatten_cons, List.length_append]
    have hks : ∀ a ∈ keys, fs.filter (fun f => f.area_id = a)
        = (fs.filter (fun f => !decide (f.area_id = k))).filter (fun f => f.area_id = a) := by
      intro a ha
      rw [List.filter_filter]
      apply List.filter_congr
      intro f _
      by_cases hfa : f.area_id = a
      · have hak : ¬ a = k := by
          intro h
          exact (List.nodup_cons.mp hnd).1 (h ▸ ha)
        have hne : ¬ f.area_id = k := by rw [hfa]; exact hak
        simp [hfa, hne, hak]
      · simp [hfa]
    have hmap : keys.map (fun a => fs.filter (fun f => f.area_id = a))
        = keys.map (fun a =>
            (fs.filter (fun f => !decide (f.area_id = k))).filter (fun f => f.area_id = a)) :=
      List.map_congr_left hks
    rw [hmap, length_flatten_filter_groups keys (fs.filter (fun f => !decide (f.area_id = k)))
      (List.nodup_cons.mp hnd).2
      (fun f hf => by
        rcases List.mem_filter.mp hf with ⟨hmem, hnk⟩
        rcases List.mem_cons.mp (hcov f hmem) with hk | hks2
        · exact absurd (by simpa using hk) (by simpa using hnk)
        · exact hks2)]
    have hcount := List.length_eq_countP_add_countP
      (p := fun f => decide (f.area_id = k)) (l := fs)
    rw [List.countP_eq_length_filter, List.countP_eq_length_filter] at hcount
    have hsame : fs.filter (fun a => decide (¬ decide (a.area_id = k) = true))
        = fs.filter (fun f => !decide (f.area_id = k)) := by
      apply List.filter_congr
      intro f _
      by_cases h : f.area_id = k <;> simp [h]
    rw [hsame] at hcount
    omega

/-- C3: the output of `recomputeAlerts` has the same cardinality as the
input; it is the concatenation of one group per `area_id`, the groups in
order of first appearance of that `area_id` in the input; per area the output
count equals the input count, and each group is sorted ascending by month. -/
theorem recomputeAlerts_shape (fs : List Feature) (θ : ℚ) :
    (recomputeAlerts fs θ).length = fs.length
    ∧ recomputeAlerts fs θ = ((areaKeys fs).map (fun a => groupOut fs θ a)).flatten
    ∧ (∀ a, (groupOut fs θ a).length = (fs.filter (fun f => f.area_id = a)).length)
    ∧ (∀ a, (groupOut fs θ a).Pairwise (fun x y => strLe x.month y.month = true)) := by
  refine ⟨?_, ?_, fun a => length_groupOut fs θ a, fun a => ?_⟩
  · by_cases hfs : fs.length = 0
    · rw [List.length_eq_zero] at hfs
      subst hfs
      rfl
    · rw [recomputeAlerts, if_neg hfs, List.length_flatten, List.map_map]
      have hlen : ((areaKeys fs).map
          (List.length ∘ fun a => processGroup (fs.filter (fun f => f.area_id = a)) θ))
          = ((areaKeys fs).map
              (List.length ∘ fun a => fs.filter (fun f => f.area_id = a))) :=
        List.map_congr_left (fun a _ => by simp [length_processGroup])
      rw [hlen]
      have h2 := length_flatten_filter_groups (areaKeys fs) fs (nodup_areaKeys fs)
        (fun f hf => mem_areaKeys.mpr ⟨f, hf, rfl⟩)
      rw [List.length_flatten, List.map_map] at h2
      exact h2
  · by_cases hfs : fs.length = 0
    · rw [List.length_eq_zero] at hfs
      subst hfs
      rfl
    · rw [recomputeAlerts, if_neg hfs]
      exact congrArg List.flatten (List.map_congr_left (fun a _ => (groupOut_eq fs θ a).symm))
  · rw [groupOut_eq]
    have hs : (sortByMonth (fs.filter (fun f => f.area_id = a))).Pairwise monthLe :=
      List.sorted_insertionSort monthLe _
    have hmap := map_month_processGroup (fs.filter (fun f => f.area_id = a)) θ
    have hp : ((processGroup (fs.filter (fun f => f.area_id = a)) θ).map
        (fun e => e.month)).Pairwise (fun m1 m2 => strLe m1 m2 = true) := by
      rw [hmap, List.pairwise_map]
      exact hs
    exact List.pairwise_map.mp hp

/-- C7: comparing a month with itself yields an empty result set. -/
theorem deltaFeatures_self (fs : List EnrichedRecord) (m : String) :
    deltaFeatures fs m m = [] := by
  simp [deltaFeatures]

theorem mem_monthKeys {fs : List EnrichedRecord} {m id : String} :
    id ∈ monthKeys fs m ↔ ∃ f ∈ fs, f.month = m ∧ f.area_id = id := by
  unfold monthKeys
  rw [mem_dedupKeys]
  constructor
  · intro h
    rcases List.mem_map.mp h with ⟨f, hf, hid⟩
    rcases List.mem_filter.mp hf with ⟨hmem, hm⟩
    exact ⟨f, hmem, by simpa using hm, hid⟩
  · rintro ⟨f, hmem, hm, hid⟩
    exact List.mem_map.mpr ⟨f, List.mem_filter.mpr ⟨hmem, by simpa using hm⟩, hid⟩

theorem mem_allIds {fs : List EnrichedRecord} {A B id : String} :
    id ∈ allIds fs A B ↔ ∃ f ∈ fs, f.area_id = id ∧ (f.month = A ∨ f.month = B) := by
  unfold allIds
  rw [mem_dedupKeys, List.mem_append, mem_monthKeys, mem_monthKeys]
  constructor
  · rintro (⟨f, hf, hm, hid⟩ | ⟨f, hf, hm, hid⟩)
    · exact ⟨f, hf, hid, Or.inl hm⟩
    · exact ⟨f, hf, hid, Or.inr hm⟩
  · rintro ⟨f, hf, hid, (hm | hm)⟩
    · exact Or.inl ⟨f, hf, hm, hid⟩
    · exact Or.inr ⟨f, hf, hm, hid⟩

theorem monthMap_eq_none {fs : List EnrichedRecord} {m id : String} :
    monthMap fs m id = none ↔ ¬ ∃ f ∈ fs, f.month = m ∧ f.area_id = id := by
  unfold monthMap
  rw [List.find?_eq_none]
  constructor
  · rintro h ⟨f, hf, hm, hid⟩
    have hmem : f ∈ (fs.filter (fun f => f.month = m)).reverse :=
      List.mem_reverse.mpr (List.mem_filter.mpr ⟨hf, by simpa using hm⟩)
    have hcon := h f hmem
    simp [hid] at hcon
  · intro h f hf
    simp only [decide_eq_true_eq]
    intro hid
    rcases List.mem_filter.mp (List.mem_reverse.mp hf) with ⟨hmem, hm⟩
    exact h ⟨f, hmem, by simpa using hm, hid⟩

theorem mem_deltaFeatures {fs : List EnrichedRecord} {A B : String}
    {d : DeltaRecord} (hA : A ≠ "") (hB : B ≠ "") (hAB : A ≠ B) :
    d ∈ deltaFeatures fs A B ↔ ∃ id ∈ allIds fs A B, d = mkDelta fs A B id := by
  unfold deltaFeatures
  rw [if_neg (by simp [hA, hB, hAB])]
  constructor
  · intro h
    rcases List.mem_map.mp h with ⟨id, hid, rfl⟩
    exact ⟨id, hid, rfl⟩
  · rintro ⟨id, hid, rfl⟩
    exact List.mem_map.mpr ⟨id, hid, rfl⟩

theorem area_id_mkDelta (fs : List EnrichedRecord) (A B id : String) :
    (mkDelta fs A B id).area_id = id := rfl

/-- C2: for distinct months, the comparison produces exactly one delta record
per `area_id` in the union of the areas present at either month; a missing
side defaults counts to 0 and risk to null; `delta_risk_index` is
`round4(riskB - riskA)` only when both sides are non-null and null otherwise;
`delta_count` is the difference of zero-defaulted counts; `alert_level` and
`stability_flag` come from month B's record, defaulting to `"none"` / false. -/
theorem deltaFeatures_union_fields (fs : List EnrichedRecord) (A B : String)
    (hA : A ≠ "") (hB : B ≠ "") (hAB : A ≠ B) :
    ((deltaFeatures fs A B).map (fun d => d.area_id)).Nodup
    ∧ (∀ id, (∃ d ∈ deltaFeatures fs A B, d.area_id = id) ↔
        ∃ f ∈ fs, f.area_id = id ∧ (f.month = A ∨ f.month = B))
    ∧ (∀ d ∈ deltaFeatures fs A B,
        d.risk_index_a = (monthMap fs A d.area_id).bind EnrichedRecord.risk_index
        ∧ d.risk_index_b = (monthMap fs B d.area_id).bind EnrichedRecord.risk_index
        ∧ d.theft_count_a = ((monthMap fs A d.area_id).bind EnrichedRecord.theft_count).getD 0
        ∧ d.theft_count_b = ((monthMap fs B d.area_id).bind EnrichedRecord.theft_count).getD 0
        ∧ (monthMap fs A d.area_id = none →
            d.theft_count_a = 0 ∧ d.risk_index_a = none ∧ d.delta_risk_index = none)
        ∧ (monthMap fs B d.area_id = none →
            d.theft_count_b = 0 ∧ d.risk_index_b = none ∧ d.delta_risk_index = none)
        ∧ (∀ x y, d.risk_index_a = some x → d.risk_index_b = some y →
            d.delta_risk_index = some (round4 (y - x)))
        ∧ ((d.risk_index_a = none ∨ d.risk_index_b = none) → d.delta_risk_index = none)
        ∧ d.delta_count = d.theft_count_b - d.theft_count_a
        ∧ d.alert_level = ((monthMap fs B d.area_id).map EnrichedRecord.alert_level).getD "none"
        ∧ d.stability_flag =
            ((monthMap fs B d.area_id).bind EnrichedRecord.stability_flag).getD false) := by
  refine ⟨?_, ?_, ?_⟩
  · unfold deltaFeatures
    rw [if_neg (by simp [hA, hB, hAB]), List.map_map]
    have hmm : ((allIds fs A B).map ((fun d => d.area_id) ∘ (fun id => mkDelta fs A B id)))
        = allIds fs A B := by
      have : ((fun d : DeltaRecord => d.area_id) ∘ (fun id => mkDelta fs A B id))
          = (fun id => id) := rfl
      rw [this]
      exact List.map_id' _
    rw [hmm]
    exact nodup_dedupKeys _
  · intro id
    constructor
    · rintro ⟨d, hd, rfl⟩
      rcases (mem_deltaFeatures hA hB hAB).mp hd with ⟨i, hi, rfl⟩
      rw [area_id_mkDelta]
      exact mem_allIds.mp hi
    · intro hex
      exact ⟨mkDelta fs A B id,
        (mem_deltaFeatures hA hB hAB).mpr ⟨id, mem_allIds.mpr hex, rfl⟩,
        area_id_mkDelta fs A B id⟩
  · intro d hd
    rcases (mem_deltaFeatures hA hB hAB).mp hd with ⟨id, _, rfl⟩
    simp only [area_id_mkDelta, mkDelta]
    rcases hma : monthMap fs A id with _ | fa <;>
      rcases hmb : monthMap fs B id with _ | fb
    · simp
    · rcases hrfb : fb.risk_index with _ | y0 <;> simp [hrfb]
    · rcases hrfa : fa.risk_index with _ | x0 <;> simp [hrfa]
    · rcases hrfa : fa.risk_index with _ | x0 <;>
        rcases hrfb : fb.risk_index with _ | y0 <;> simp [hrfa, hrfb]

/-- Witness for C2 on the two-month fixture record set. -/
theorem deltaFeatures_union_fields_witness :
    ("2023-01" : String) ≠ "" ∧ ("2023-02" : String) ≠ ""
    ∧ ("2023-01" : String) ≠ "2023-02"
    ∧ (((deltaFeatures wEnriched "2023-01" "2023-02").map (fun d => d.area_id)).Nodup
      ∧ (∀ id, (∃ d ∈ deltaFeatures wEnriched "2023-01" "2023-02", d.area_id = id) ↔
          ∃ f ∈ wEnriched, f.area_id = id ∧ (f.month = "2023-01" ∨ f.month = "2023-02"))
      ∧ (∀ d ∈ deltaFeatures wEnriched "2023-01" "2023-02",
          d.risk_index_a =
            (monthMap wEnriched "2023-01" d.area_id).bind EnrichedRecord.risk_index
          ∧ d.risk_index_b =
            (monthMap wEnriched "2023-02" d.area_id).bind EnrichedRecord.risk_index
          ∧ d.theft_count_a =
            ((monthMap wEnriched "2023-01" d.area_id).bind EnrichedRecord.theft_count).getD 0
          ∧ d.theft_count_b =
            ((monthMap wEnriched "2023-02" d.area_id).bind EnrichedRecord.theft_count).getD 0
          ∧ (monthMap wEnriched "2023-01" d.area_id = none →
              d.theft_count_a = 0 ∧ d.risk_index_a = none ∧ d.delta_risk_index = none)
          ∧ (monthMap wEnriched "2023-02" d.area_id = none →
              d.theft_count_b = 0 ∧ d.risk_index_b = none ∧ d.delta_risk_index = none)
          ∧ (∀ x y, d.risk_index_a = some x → d.risk_index_b = some y →
              d.delta_risk_index = some (round4 (y - x)))
          ∧ ((d.risk_index_a = none ∨ d.risk_index_b = none) → d.delta_risk_index = none)
          ∧ d.delta_count = d.theft_count_b - d.theft_count_a
          ∧ d.alert_level =
            ((monthMap wEnriched "2023-02" d.area_id).map EnrichedRecord.alert_level).getD "none"
          ∧ d.stability_flag =
            ((monthMap wEnriched "2023-02" d.area_id).bind
              EnrichedRecord.stability_flag).getD false)) :=
  ⟨by decide, by decide, by decide,
    deltaFeatures_union_fields wEnriched "2023-01" "2023-02"
      (by decide) (by decide) (by decide)⟩

/-- C8: an absent (null / undefined) or empty input array yields an empty
output, not an error. -/
theorem recomputeAlerts_empty (θ : ℚ) :
    recomputeAlertsOpt none θ = []
    ∧ recomputeAlertsOpt (some []) θ = []
    ∧ recomputeAlerts [] θ = [] :=
  ⟨rfl, rfl, rfl⟩

/-- C6: the ranking selector keeps only records with a present metric value
(and, under `alertsOnly`, a present alert level other than `"none"`), sorts
the remainder descending by metric with a stable sort, and truncates to the
first 10.  Hence: at most 10 results, every result has a present metric and
comes from the source, under `alertsOnly` no result's alert level is absent
or `"none"`, the result is pairwise descending, and records with equal metric
values appear as a sublist of (so in the same relative order as) the source's
records with that value.  The input list is never mutated: the embedding is a
pure function and the JS code sorts a copy (`[...source]`). -/
theorem rankedTopN_spec {α : Type} (source : List α) (metric : α → Option ℚ)
    (alertOf : α → Option String) (ao : Bool) :
    (rankedTopN source metric alertOf ao).length ≤ 10
    ∧ (∀ f ∈ rankedTopN source metric alertOf ao, (metric f).isSome = true ∧ f ∈ source)
    ∧ (ao = true → ∀ f ∈ rankedTopN source metric alertOf ao,
        alertOf f ≠ none ∧ alertOf f ≠ some "none")
    ∧ (rankedTopN source metric alertOf ao).Pairwise
        (fun a b => (metric b).getD 0 ≤ (metric a).getD 0)
    ∧ (∀ q : ℚ, List.Sublist
        ((rankedTopN source metric alertOf ao).filter (fun f => metric f = some q))
        (source.filter (fun f => metric f = some q))) := by
  have instTot : IsTotal α (fun a b => (metric b).getD 0 ≤ (metric a).getD 0) :=
    ⟨fun _ _ => le_total _ _⟩
  have instTr : IsTrans α (fun a b => (metric b).getD 0 ≤ (metric a).getD 0) :=
    ⟨fun _ _ _ h1 h2 => le_trans h2 h1⟩
  refine ⟨?_, ?_, ?_, ?_, ?_⟩
  · exact List.length_take_le 10 _
  · intro f hf
    have hf2 := (List.mem_insertionSort _).mp (List.mem_of_mem_take hf)
    have hf1 := List.mem_of_mem_filter hf2
    exact ⟨(List.mem_filter.mp hf1).2, (List.mem_filter.mp hf1).1⟩
  · rintro rfl f hf
    have hf2 := (List.mem_insertionSort _).mp (List.mem_of_mem_take hf)
    have hp2 := (List.mem_filter.mp hf2).2
    simp only [if_pos rfl] at hp2
    rcases hao : alertOf f with _ | l
    · rw [hao] at hp2
      exact absurd hp2 (by simp)
    · rw [hao] at hp2
      have hl := of_decide_eq_true hp2
      refine ⟨by simp, ?_⟩
      intro hcon
      have : l = "none" := by
        have := Option.some.injEq l "none" ▸ hcon
        simpa using hcon
      exact hl.2 this
  · exact List.Pairwise.sublist (List.take_sublist 10 _)
      (List.sorted_insertionSort _ _)
  · intro q
    have hc_pair : (((source.filter (fun f => (metric f).isSome)).filter
        (fun f => if ao then
            (match alertOf f with
             | some l => decide (l ≠ "" ∧ l ≠ "none")
             | none => false)
          else true)).filter (fun f => metric f = some q)).Pairwise
        (fun a b => (metric b).getD 0 ≤ (metric a).getD 0) := by
      apply List.pairwise_of_forall_mem_list
      intro x hx y hy
      have hx' : metric x = some q := by simpa using (List.mem_filter.mp hx).2
      have hy' : metric y = some q := by simpa using (List.mem_filter.mp hy).2
      rw [hx', hy']
    have hcs := List.sublist_insertionSort hc_pair (List.filter_sublist _)
    have hself : ((((source.filter (fun f => (metric f).isSome)).filter
        (fun f => if ao then
            (match alertOf f with
             | some l => decide (l ≠ "" ∧ l ≠ "none")
             | none => false)
          else true)).filter (fun f => metric f = some q)).filter
            (fun f => metric f = some q)) =
        (((source.filter (fun f => (metric f).isSome)).filter
        (fun f => if ao then
            (match alertOf f with
             | some l => decide (l ≠ "" ∧ l ≠ "none")
             | none => false)
          else true)).filter (fun f => metric f = some q)) :=
      List.filter_eq_self.mpr (fun a ha => (List.mem_filter.mp ha).2)
    have hsub2 := hcs.filter (fun f => metric f = some q)
    rw [hself] at hsub2
    have hperm := (List.perm_insertionSort
      (fun a b => (metric b).getD 0 ≤ (metric a).getD 0)
      ((source.filter (fun f => (metric f).isSome)).filter
        (fun f => if ao then
            (match alertOf f with
             | some l => decide (l ≠ "" ∧ l ≠ "none")
             | none => false)
          else true))).filter (fun f => metric f = some q)
    have hfeq := (hsub2.eq_of_length (by rw [hperm.length_eq])).symm
    have h1 := (List.take_sublist 10
      (List.insertionSort (fun a b => (metric b).getD 0 ≤ (metric a).getD 0)
        ((source.filter (fun f => (metric f).isSome)).filter
          (fun f => if ao then
              (match alertOf f with
               | some l => decide (l ≠ "" ∧ l ≠ "none")
               | none => false)
            else true)))).filter (fun f => metric f = some q)
    rw [hfeq] at h1
    have h2 : List.Sublist
        (((source.filter (fun f => (metric f).isSome)).filter
          (fun f => if ao then
              (match alertOf f with
               | some l => decide (l ≠ "" ∧ l ≠ "none")
               | none => false)
            else true)).filter (fun f => metric f = some q))
        ((source.filter (fun f => (metric f).isSome)).filter
          (fun f => metric f = some q)) :=
      (List.filter_sublist _).filter _
    have h3 : List.Sublist
        ((source.filter (fun f => (metric f).isSome)).filter
          (fun f => metric f = some q))
        (source.filter (fun f => metric f = some q)) :=
      (List.filter_sublist _).filter _
    exact h1.trans (h2.trans h3)

/-- Witness for C6 on the fixture record set, ranking by `risk_index` with
the alerts-only filter on. -/
theorem rankedTopN_spec_witness :
    (rankedTopN wEnriched (fun e => e.risk_index) (fun e => some e.alert_level) true).length ≤ 10
    ∧ (∀ f ∈ rankedTopN wEnriched (fun e => e.risk_index) (fun e => some e.alert_level) true,
        (f.risk_index).isSome = true ∧ f ∈ wEnriched)
    ∧ (true = true →
        ∀ f ∈ rankedTopN wEnriched (fun e => e.risk_index) (fun e => some e.alert_level) true,
          some f.alert_level ≠ none ∧ some f.alert_level ≠ some "none")
    ∧ (rankedTopN wEnriched (fun e => e.risk_index) (fun e => some e.alert_level) true).Pairwise
        (fun a b => (b.risk_index).getD 0 ≤ (a.risk_index).getD 0)
    ∧ (∀ q : ℚ, List.Sublist
        ((rankedTopN wEnriched (fun e => e.risk_index) (fun e => some e.alert_level)
          true).filter (fun f => f.risk_index = some q))
        (wEnriched.filter (fun f => f.risk_index = some q))) :=
  rankedTopN_spec wEnriched (fun e => e.risk_index) (fun e => some e.alert_level) true

/-- C9: `recomputeAlerts` is deterministic and referentially transparent:
identical arguments yield identical results.  In this embedding the function
is pure by construction (it reads no state besides its arguments), so the
property is equality congruence. -/
theorem recomputeAlerts_deterministic (fs₁ fs₂ : List Feature) (θ₁ θ₂ : ℚ)
    (hf : fs₁ = fs₂) (hθ : θ₁ = θ₂) :
    recomputeAlerts fs₁ θ₁ = recomputeAlerts fs₂ θ₂ := by
  rw [hf, hθ]

/-- Witness for C9 on the fixture panel. -/
theorem recomputeAlerts_deterministic_witness :
    wFeatures = wFeatures ∧ (1/2 : ℚ) = 1/2
    ∧ recomputeAlerts wFeatures (1/2) = recomputeAlerts wFeatures (1/2) :=
  ⟨rfl, rfl, recomputeAlerts_deterministic wFeatures wFeatures (1/2) (1/2) rfl rfl⟩

end BikeTheft
